import Mathlib

/-
Verification of the logical core of the `image-synthesis` tutorial
notebook ("Basic PyTorch Tutorial").  Tensor values are embedded as
rationals, tensors as lists, the framework's random sources (torch.rand,
dropout masks, weight initialization) as explicit function parameters,
and the stateful training loop as explicit state passing.
-/

/-- Index of the first maximal element of a list of rationals (0 on the
empty list).  Embeds `Tensor.argmax`, which returns the index of the
first maximal value. -/
def argmax : List ℚ → ℕ
  | [] => 0
  | [_] => 0
  | x :: y :: ys =>
      if x < (y :: ys).getD (argmax (y :: ys)) 0 then argmax (y :: ys) + 1 else 0

/-- Arithmetic mean of a list of rationals.  Embeds `Tensor.mean` along the
last axis of a chunk. -/
def mean (l : List ℚ) : ℚ := l.sum / l.length

/-- Embeds `torch.rand(N, M)`: an N-by-M matrix of values drawn from the
random source `g` (the shape is guaranteed by the framework; the entries
are modelled by the arbitrary source `g`). -/
def torch_rand (N M : ℕ) (g : ℕ → ℕ → ℚ) : List (List ℚ) :=
  (List.range N).map fun i => (List.range M).map fun j => g i j

/-- Embeds one row of `samples.reshape(N, 4, -1)`: the row is viewed as 4
contiguous chunks of `length / 4` elements each. -/
def reshapeRow4 (v : List ℚ) : List (List ℚ) :=
  [v.take (v.length / 4),
   (v.drop (v.length / 4)).take (v.length / 4),
   (v.drop (2 * (v.length / 4))).take (v.length / 4),
   (v.drop (3 * (v.length / 4))).take (v.length / 4)]

/-- Embeds `samples.reshape(N, 4, -1).mean(-1)` for a single row: the mean
of each of the 4 contiguous chunks. -/
def chunkMeans (v : List ℚ) : List ℚ := (reshapeRow4 v).map mean

/-- The dataset object: stored samples and stored labels.  Embeds the state
of a `MyDataset` instance. -/
structure MyDataset where
  samples : List (List ℚ)
  labels : List ℕ

/-- Embeds `MyDataset.__init__(N)`: `samples = torch.rand(N, 256)`;
`labels = samples.reshape(N, 4, -1).mean(-1).argmax(1)`.  The random
source of `torch.rand` is the explicit parameter `g`. -/
def MyDataset.init (N : ℕ) (g : ℕ → ℕ → ℚ) : MyDataset :=
  { samples := torch_rand N 256 g
    labels := (torch_rand N 256 g).map fun v => argmax (chunkMeans v) }

/-- Embeds `MyDataset.__len__`: `len(self.samples)`, the number of rows. -/
def MyDataset.len (d : MyDataset) : ℕ := d.samples.length

/-- Embeds indexing a tensor along its first axis with a Python integer
index: negative indices count from the end (index -1 is the last row);
an index outside `[-len, len)` raises IndexError (here: `none`). -/
def tensorRow {α : Type} (rows : List α) (index : ℤ) : Option α :=
  let i : ℤ := if index < 0 then index + rows.length else index
  if 0 ≤ i ∧ i < rows.length then rows[i.toNat]? else none

/-- Embeds `MyDataset.__getitem__(index)`:
`return self.samples[index], self.labels[index]`. -/
def MyDataset.getitem (d : MyDataset) (index : ℤ) : Option (List ℚ × ℕ) :=
  match tensorRow d.samples index, tensorRow d.labels index with
  | some s, some l => some (s, l)
  | _, _ => none

/-- Embeds the batching of `torch.utils.data.DataLoader` (its
BatchSampler): indices are accumulated into a buffer that is emitted each
time it reaches `batch_size`; at the end of the pass a non-empty
incomplete buffer is emitted only when `drop_last` is false. -/
def batchAux {α : Type} (batch_size : ℕ) (drop_last : Bool) :
    List α → List α → List (List α)
  | [], buf => if drop_last || buf.isEmpty then [] else [buf]
  | x :: xs, buf =>
      if buf.length + 1 = batch_size then
        (buf ++ [x]) :: batchAux batch_size drop_last xs []
      else
        batchAux batch_size drop_last xs (buf ++ [x])

/-- One full pass of a DataLoader over `items` (already in the order
determined by the sampler, shuffled or sequential). -/
def dataLoaderBatches {α : Type} (batch_size : ℕ) (drop_last : Bool)
    (items : List α) : List (List α) :=
  batchAux batch_size drop_last items []

/-- Dot product of two vectors. -/
def dotProduct (w x : List ℚ) : ℚ := (List.zipWith (fun a b => a * b) w x).sum

/-- Embeds `nn.Linear` application: each output coordinate is the dot
product of a weight row with the input plus the bias entry. -/
def linearForward (W : List (List ℚ)) (b : List ℚ) (x : List ℚ) : List ℚ :=
  (W.zip b).map fun p => dotProduct p.1 x + p.2

/-- Embeds `nn.ReLU` application. -/
def reluForward (x : List ℚ) : List ℚ := x.map fun a => max a 0

/-- Embeds `nn.Dropout(p)` application: in training mode each unit is
zeroed where the random `mask` fires and the rest are rescaled by
`1 / (1 - p)`; in evaluation mode the input passes through unchanged. -/
def dropoutForward (training : Bool) (mask : ℕ → Bool) (p : ℚ)
    (x : List ℚ) : List ℚ :=
  if training then
    x.enum.map fun q => if mask q.1 then 0 else q.2 / (1 - p)
  else x

/-- A layer of an `nn.Sequential` container, as used by `MyModel`. -/
inductive TorchLayer
  | linear (W : List (List ℚ)) (b : List ℚ)
  | relu
  | dropout (p : ℚ)

/-- Application of one layer to a vector. -/
def TorchLayer.apply (training : Bool) (mask : ℕ → Bool) :
    TorchLayer → List ℚ → List ℚ
  | .linear W b, x => linearForward W b x
  | .relu, x => reluForward x
  | .dropout p, x => dropoutForward training mask p x

/-- Embeds `nn.Sequential` application: layers applied left to right. -/
def nnSequential (layers : List TorchLayer) (training : Bool)
    (mask : ℕ → Bool) (x : List ℚ) : List ℚ :=
  layers.foldl (fun v layer => layer.apply training mask v) x

/-- An r-by-c matrix with entries from the source `g`; models the shape
guarantee of a framework weight tensor with arbitrary entries. -/
def mkMatrix (r c : ℕ) (g : ℕ → ℕ → ℚ) : List (List ℚ) :=
  (List.range r).map fun i => (List.range c).map fun j => g i j

/-- Parameters of a `MyModel` instance: the two linear layers. -/
structure MyModel where
  W1 : List (List ℚ)
  b1 : List ℚ
  W2 : List (List ℚ)
  b2 : List ℚ

/-- Embeds `MyModel.__init__(in_dim, out_dim)`: `nn.Linear(in_dim, 128)`
and `nn.Linear(128, out_dim)` with framework-initialized entries drawn
from the sources `g1 h1 g2 h2`. -/
def MyModel.init (in_dim out_dim : ℕ) (g1 : ℕ → ℕ → ℚ) (h1 : ℕ → ℚ)
    (g2 : ℕ → ℕ → ℚ) (h2 : ℕ → ℚ) : MyModel :=
  { W1 := mkMatrix 128 in_dim g1
    b1 := (List.range 128).map h1
    W2 := mkMatrix out_dim 128 g2
    b2 := (List.range out_dim).map h2 }

/-- Embeds `self.net`: `nn.Sequential(nn.Linear(in_dim, 128), nn.ReLU(),
nn.Dropout(0.2), nn.Linear(128, out_dim))`. -/
def MyModel.net (m : MyModel) : List TorchLayer :=
  [.linear m.W1 m.b1, .relu, .dropout (1 / 5), .linear m.W2 m.b2]

/-- Embeds `MyModel.forward`: `x = x - 0.5; return self.net(x)`.  The
dropout randomness is the explicit `mask` parameter; `training` is the
module's train/eval mode. -/
def MyModel.forward (m : MyModel) (training : Bool) (mask : ℕ → Bool)
    (x : List ℚ) : List ℚ :=
  nnSequential m.net training mask (x.map fun a => a - 1 / 2)

/-- Spec-side model pipeline, written from the specification words:
center the input by subtracting 0.5 elementwise, then linear transform,
rectified-linear activation, dropout with probability 0.2 (active only in
training mode), then the second linear transform; no softmax. -/
def specModelForward (m : MyModel) (training : Bool) (mask : ℕ → Bool)
    (x : List ℚ) : List ℚ :=
  linearForward m.W2 m.b2
    (dropoutForward training mask (1 / 5)
      (reluForward (linearForward m.W1 m.b1 (x.map fun a => a - 1 / 2))))

/-- A collated batch as yielded by the loader: the stacked sample rows and
the corresponding labels. -/
abbrev Batch : Type := List (List ℚ) × List ℕ

/-- The update capability provided by a torch optimizer: from current
model parameters, optimizer state, the batch and the loss value, produce
updated parameters and state (`zero_grad`, `backward` and `step` are
framework primitives folded into one opaque update, as the specification
treats them). -/
structure TorchOptimizer (θ σ : Type) where
  step : θ → σ → Batch → ℚ → θ × σ

/-- The loop state of `single_epoch_loop`: the Python locals `n_samples`,
`n_correct`, `loss` (absent before the first iteration), together with
the implicitly threaded model parameters and optimizer state. -/
structure LoopState (θ σ : Type) where
  n_samples : ℕ
  n_correct : ℕ
  last_loss : Option ℚ
  params : θ
  ostate : σ

/-- Embeds `(out.argmax(1) == labels).sum().item()`: the number of rows
whose first-maximal score index equals the true label. -/
def countCorrect (out : List (List ℚ)) (labels : List ℕ) : ℕ :=
  (out.zip labels).countP fun p => argmax p.1 == p.2

/-- Total number of samples over all batches of a loader pass. -/
def totalSamples (loader : List Batch) : ℕ :=
  (loader.map fun b => b.1.length).sum

/-- The parameter/optimizer-state update performed by one loop iteration:
`optimizer.zero_grad(); loss.backward(); optimizer.step()` runs only when
`mode == 'train'`; otherwise nothing is touched. -/
def trainUpdate {θ σ : Type} (f : θ → List ℚ → List ℚ)
    (c : List (List ℚ) → List ℕ → ℚ) (opt : Option (TorchOptimizer θ σ))
    (mode : String) (p : θ) (s : σ) (b : Batch) : θ × σ :=
  if mode = "train" then
    match opt with
    | some o => o.step p s b (c (b.1.map (f p)) b.2)
    | none => (p, s)
  else (p, s)

/-- The loop body of `single_epoch_loop` on its success path: forward
pass, loss, optional training update, accuracy accounting. -/
def epochBodyOk {θ σ : Type} (f : θ → List ℚ → List ℚ)
    (c : List (List ℚ) → List ℕ → ℚ) (opt : Option (TorchOptimizer θ σ))
    (mode : String) (st : LoopState θ σ) (b : Batch) : LoopState θ σ :=
  let out := b.1.map (f st.params)
  let ps := trainUpdate f c opt mode st.params st.ostate b
  { n_samples := st.n_samples + b.1.length
    n_correct := st.n_correct + countCorrect out b.2
    last_loss := some (c out b.2)
    params := ps.1
    ostate := ps.2 }

/-- The loop body of `single_epoch_loop`: as `epochBodyOk`, except that in
train mode with no optimizer supplied, `optimizer.zero_grad()` raises
AttributeError on `None`. -/
def epochBody {θ σ : Type} (f : θ → List ℚ → List ℚ)
    (c : List (List ℚ) → List ℕ → ℚ) (opt : Option (TorchOptimizer θ σ))
    (mode : String) (st : LoopState θ σ) (b : Batch) :
    Except String (LoopState θ σ) :=
  let out := b.1.map (f st.params)
  let loss := c out b.2
  let upd : Except String (θ × σ) :=
    if mode = "train" then
      match opt with
      | none => .error "AttributeError: NoneType object has no attribute zero_grad"
      | some o => .ok (o.step st.params st.ostate b loss)
    else .ok (st.params, st.ostate)
  match upd with
  | .error e => .error e
  | .ok ps =>
      .ok { n_samples := st.n_samples + b.1.length
            n_correct := st.n_correct + countCorrect out b.2
            last_loss := some loss
            params := ps.1
            ostate := ps.2 }

/-- The initial loop state: `n_samples, n_correct = 0, 0`, no loss yet,
the incoming model parameters and optimizer state. -/
def initLoopState {θ σ : Type} (p : θ) (s : σ) : LoopState θ σ :=
  { n_samples := 0, n_correct := 0, last_loss := none, params := p, ostate := s }

/-- The epilogue of `single_epoch_loop`:
`return n_correct / n_samples, loss.item()`.  With `n_samples = 0` the
division raises ZeroDivisionError; a still-unbound `loss` would raise
NameError. -/
def epochFinish {θ σ : Type} (st : LoopState θ σ) :
    Except String ((ℚ × ℚ) × θ × σ) :=
  if st.n_samples = 0 then .error "ZeroDivisionError: division by zero"
  else
    match st.last_loss with
    | none => .error "NameError: name loss is not defined"
    | some l => .ok (((st.n_correct : ℚ) / (st.n_samples : ℚ), l), st.params, st.ostate)

/-- Embeds `single_epoch_loop(model, loader, optimizer=None, mode='train')`.
The model is split into its forward capability `f` and parameters; `c`
embeds the numeric value of `F.cross_entropy` (a framework primitive);
the returned value carries the accuracy/loss pair together with the
final model parameters and optimizer state. -/
def single_epoch_loop {θ σ : Type} (f : θ → List ℚ → List ℚ)
    (c : List (List ℚ) → List ℕ → ℚ) (p₀ : θ) (s₀ : σ)
    (loader : List Batch) (opt : Option (TorchOptimizer θ σ))
    (mode : String) : Except String ((ℚ × ℚ) × θ × σ) :=
  (loader.foldlM (epochBody f c opt mode) (initLoopState p₀ s₀)).bind epochFinish

/-- Spec-side count of correctly classified samples over a pass: for each
batch in order, the number of rows whose predicted label (first-maximal
score index of the model output at the current parameters) equals the
true label, with the parameters updated between batches exactly when in
train mode. -/
def specCorrect {θ σ : Type} (f : θ → List ℚ → List ℚ)
    (c : List (List ℚ) → List ℕ → ℚ) (opt : Option (TorchOptimizer θ σ))
    (mode : String) : θ → σ → List Batch → ℕ
  | _, _, [] => 0
  | p, s, b :: bs =>
      countCorrect (b.1.map (f p)) b.2 +
        specCorrect f c opt mode (trainUpdate f c opt mode p s b).1
          (trainUpdate f c opt mode p s b).2 bs

/-- The model state dictionary: the numeric state of the two linear
layers, as stored by `model.state_dict()`. -/
structure ModelStateDict where
  W1 : List (List ℚ)
  b1 : List ℚ
  W2 : List (List ℚ)
  b2 : List ℚ

/-- Embeds `model.state_dict()`. -/
def MyModel.state_dict (m : MyModel) : ModelStateDict :=
  { W1 := m.W1, b1 := m.b1, W2 := m.W2, b2 := m.b2 }

/-- Shape compatibility between a model and a state dictionary: every
parameter tensor of the dictionary has the shape the model expects. -/
def stateDictShapesMatch (m : MyModel) (sd : ModelStateDict) : Bool :=
  (m.W1.map List.length == sd.W1.map List.length) &&
  (m.b1.length == sd.b1.length) &&
  (m.W2.map List.length == sd.W2.map List.length) &&
  (m.b2.length == sd.b2.length)

/-- Embeds `model.load_state_dict(sd, strict=True)`: on shape mismatch the
framework raises; otherwise the model parameters become the stored
values. -/
def MyModel.load_state_dict (m : MyModel) (sd : ModelStateDict)
    (strict : Bool) : Except String MyModel :=
  if stateDictShapesMatch m sd then
    .ok { W1 := sd.W1, b1 := sd.b1, W2 := sd.W2, b2 := sd.b2 }
  else .error "RuntimeError: size mismatch in load_state_dict"

/-- The record saved by the checkpoint cell: epoch, model state dict,
optimizer state dict (an opaque value of type `OS`), best accuracy. -/
structure Checkpoint (OS : Type) where
  epoch : ℕ
  model_state_dict : ModelStateDict
  optimizer_state_dict : OS
  best_acc : ℚ

/-- Embeds `torch.save(record, path)`: serialization is modelled as a
path-indexed store holding the record exactly (the framework contract is
a bit-exact round trip of the pickled numeric state). -/
def torch_save {OS : Type} (path : String) (c : Checkpoint OS)
    (fs : String → Option (Checkpoint OS)) : String → Option (Checkpoint OS) :=
  fun q => if q = path then some c else fs q

/-- Embeds `torch.load(path)`: reads back the record stored at `path`
(`none` models the missing-file failure). -/
def torch_load {OS : Type} (path : String)
    (fs : String → Option (Checkpoint OS)) : Option (Checkpoint OS) :=
  fs path

theorem argmax_lt_length (l : List ℚ) (h : l ≠ []) : argmax l < l.length := by
  induction l with
  | nil => exact absurd rfl h
  | cons x xs ih =>
    cases xs with
    | nil => simp [argmax]
    | cons y ys =>
      by_cases hx : x < (y :: ys).getD (argmax (y :: ys)) 0
      · have h1 := ih (List.cons_ne_nil y ys)
        simp only [argmax, if_pos hx, List.length_cons]
        exact Nat.succ_lt_succ h1
      · simp only [argmax, if_neg hx, List.length_cons]
        omega

theorem argmax_getD_le (l : List ℚ) (k : ℕ) (hk : k < l.length) :
    l.getD k 0 ≤ l.getD (argmax l) 0 := by
  induction l generalizing k with
  | nil => simp at hk
  | cons x xs ih =>
    cases xs with
    | nil =>
      have hk0 : k = 0 := by simpa using Nat.lt_one_iff.mp (by simpa using hk)
      subst hk0
      simp [argmax]
    | cons y ys =>
      by_cases hx : x < (y :: ys).getD (argmax (y :: ys)) 0
      · simp only [argmax, if_pos hx]
        cases k with
        | zero => simpa using le_of_lt hx
        | succ k' =>
          have hk' : k' < (y :: ys).length := by simpa using hk
          simpa using ih k' hk'
      · simp only [argmax, if_neg hx]
        cases k with
        | zero => simp
        | succ k' =>
          have hk' : k' < (y :: ys).length := by simpa using hk
          have h2 := ih k' hk'
          have h3 : (y :: ys).getD (argmax (y :: ys)) 0 ≤ x := le_of_not_lt hx
          simpa using h2.trans h3

theorem argmax_getD_first (l : List ℚ) (k : ℕ) (hk : k < argmax l) :
    l.getD k 0 < l.getD (argmax l) 0 := by
  induction l generalizing k with
  | nil => simp [argmax] at hk
  | cons x xs ih =>
    cases xs with
    | nil => simp [argmax] at hk
    | cons y ys =>
      by_cases hx : x < (y :: ys).getD (argmax (y :: ys)) 0
      · simp only [argmax, if_pos hx] at hk ⊢
        cases k with
        | zero => simpa using hx
        | succ k' =>
          have hk' : k' < argmax (y :: ys) := Nat.lt_of_succ_lt_succ hk
          simpa using ih k' hk'
      · simp only [argmax, if_neg hx] at hk
        exact absurd hk (Nat.not_lt_zero k)

/-- Claim C1: for every Synthetic Dataset size N and every stored item,
the sample is a vector of length 256 and the stored label is the lowest
index attaining the maximum of the arithmetic means of the 4 contiguous
64-element chunks of that sample; in particular every label is in
0, 1, 2, 3. -/
theorem myDataset_stored_label_spec (N : ℕ) (g : ℕ → ℕ → ℚ) (i : ℕ)
    (hi : i < N) :
    ∃ v ℓ, (MyDataset.init N g).samples[i]? = some v ∧
      (MyDataset.init N g).labels[i]? = some ℓ ∧
      v.length = 256 ∧ ℓ < 4 ∧
      chunkMeans v = [mean (v.take 64), mean ((v.drop 64).take 64),
        mean ((v.drop 128).take 64), mean ((v.drop 192).take 64)] ∧
      (∀ j, j < 4 → (chunkMeans v).getD j 0 ≤ (chunkMeans v).getD ℓ 0) ∧
      (∀ j, j < ℓ → (chunkMeans v).getD j 0 < (chunkMeans v).getD ℓ 0) := by
  have hv : (MyDataset.init N g).samples[i]? =
      some ((List.range 256).map (g i)) := by
    simp [MyDataset.init, torch_rand, hi]
  have hl : (MyDataset.init N g).labels[i]? =
      some (argmax (chunkMeans ((List.range 256).map (g i)))) := by
    simp [MyDataset.init, torch_rand, hi]
  have h4 : (chunkMeans ((List.range 256).map (g i))).length = 4 := by
    simp [chunkMeans, reshapeRow4]
  have hne : chunkMeans ((List.range 256).map (g i)) ≠ [] := by
    simp [chunkMeans, reshapeRow4]
  refine ⟨(List.range 256).map (g i), argmax (chunkMeans ((List.range 256).map (g i))),
    hv, hl, by simp, ?_, ?_, ?_, ?_⟩
  · have h5 := argmax_lt_length _ hne
    rw [h4] at h5
    exact h5
  · simp [chunkMeans, reshapeRow4]
  · intro j hj
    exact argmax_getD_le _ j (by rw [h4]; exact hj)
  · intro j hj
    exact argmax_getD_first _ j hj

/-- Witness for claim C1: the theorem instantiated at N = 1, the zero
random source, and item 0. -/
theorem myDataset_stored_label_spec_witness :
    ∃ v ℓ, (MyDataset.init 1 (fun _ _ => 0)).samples[0]? = some v ∧
      (MyDataset.init 1 (fun _ _ => 0)).labels[0]? = some ℓ ∧
      v.length = 256 ∧ ℓ < 4 ∧
      chunkMeans v = [mean (v.take 64), mean ((v.drop 64).take 64),
        mean ((v.drop 128).take 64), mean ((v.drop 192).take 64)] ∧
      (∀ j, j < 4 → (chunkMeans v).getD j 0 ≤ (chunkMeans v).getD ℓ 0) ∧
      (∀ j, j < ℓ → (chunkMeans v).getD j 0 < (chunkMeans v).getD ℓ 0) :=
  myDataset_stored_label_spec 1 (fun _ _ => 0) 0 Nat.one_pos

theorem tensorRow_eq_none_iff {α : Type} (rows : List α) (index : ℤ) :
    tensorRow rows index = none ↔
      ((rows.length : ℤ) ≤ index ∨ index < -(rows.length : ℤ)) := by
  simp only [tensorRow]
  split_ifs with h1 h2 h3
  · rw [List.getElem?_eq_none_iff]
    omega
  · exact iff_of_true rfl (by omega)
  · rw [List.getElem?_eq_none_iff]
    omega
  · exact iff_of_true rfl (by omega)

theorem tensorRow_natCast {α : Type} (rows : List α) (i : ℕ) :
    tensorRow rows (i : ℤ) = rows[i]? := by
  have h0 : ¬ ((i : ℤ) < 0) := by omega
  simp only [tensorRow, if_neg h0]
  split_ifs with h
  · have ht : ((i : ℤ).toNat) = i := by omega
    rw [ht]
  · rw [Eq.comm, List.getElem?_eq_none_iff]
    omega

theorem tensorRow_negCast {α : Type} (rows : List α) (i : ℕ)
    (hi : i < rows.length) :
    tensorRow rows (-((i : ℤ) + 1)) = rows[rows.length - (i + 1)]? := by
  have h0 : (-((i : ℤ) + 1) < 0) := by omega
  simp only [tensorRow, if_pos h0]
  split_ifs with h
  · have ht : ((-((i : ℤ) + 1) + rows.length).toNat) = rows.length - (i + 1) := by
      omega
    rw [ht]
  · exact absurd (And.intro (by omega) (by omega)) h

/-- Claim C4 counterexample: the claim says indexed access fails with an
out-of-range error for every negative index, but on a dataset of size 1
the access at index -1 does not fail: tensor indexing counts negative
indices from the end. -/
theorem myDataset_getitem_neg_one_succeeds :
    (MyDataset.init 1 (fun _ _ => 0)).getitem (-1) ≠ none := by
  have h1 : ((-1 : ℤ)) = -(((0 : ℕ) : ℤ) + 1) := by norm_num
  have hs : (MyDataset.init 1 (fun _ _ => 0)).samples.length = 1 := rfl
  have hl : (MyDataset.init 1 (fun _ _ => 0)).labels.length = 1 := rfl
  rw [MyDataset.getitem, h1, tensorRow_negCast _ 0 (by omega),
    tensorRow_negCast _ 0 (by omega),
    List.getElem?_eq_getElem (by omega), List.getElem?_eq_getElem (by omega)]
  simp

/-- Claim C4 as amended: the length operation returns N; indexed access
fails exactly when the index is at least N or below -N; for an in-range
non-negative index i it returns the (Sample, Label) pair at position i,
and for an in-range negative index -(i+1) it returns the pair at
position N - (i+1). -/
theorem myDataset_getitem_spec (N : ℕ) (g : ℕ → ℕ → ℚ) (index : ℤ) :
    (MyDataset.init N g).len = N ∧
    ((MyDataset.init N g).getitem index = none ↔
      ((N : ℤ) ≤ index ∨ index < -(N : ℤ))) ∧
    (∀ i : ℕ, i < N → (MyDataset.init N g).getitem (i : ℤ) =
      some ((MyDataset.init N g).samples.getD i [],
        (MyDataset.init N g).labels.getD i 0)) ∧
    (∀ i : ℕ, i < N → (MyDataset.init N g).getitem (-((i : ℤ) + 1)) =
      some ((MyDataset.init N g).samples.getD (N - (i + 1)) [],
        (MyDataset.init N g).labels.getD (N - (i + 1)) 0)) := by
  have hs : (MyDataset.init N g).samples.length = N := by
    simp [MyDataset.init, torch_rand]
  have hl : (MyDataset.init N g).labels.length = N := by
    simp [MyDataset.init, torch_rand]
  refine ⟨hs, ?_, ?_, ?_⟩
  · constructor
    · intro h
      by_contra hc
      push_neg at hc
      have hsome : tensorRow (MyDataset.init N g).samples index ≠ none := by
        rw [Ne, tensorRow_eq_none_iff, hs]
        omega
      have hsome2 : tensorRow (MyDataset.init N g).labels index ≠ none := by
        rw [Ne, tensorRow_eq_none_iff, hl]
        omega
      obtain ⟨s, hval⟩ := Option.ne_none_iff_exists'.mp hsome
      obtain ⟨l, hval2⟩ := Option.ne_none_iff_exists'.mp hsome2
      rw [MyDataset.getitem, hval, hval2] at h
      exact Option.noConfusion h
    · intro h
      have hnone : tensorRow (MyDataset.init N g).samples index = none := by
        rw [tensorRow_eq_none_iff, hs]
        omega
      cases hval2 : tensorRow (MyDataset.init N g).labels index <;>
        rw [MyDataset.getitem, hnone, hval2]
  · intro i hi
    have hi' : i < (MyDataset.init N g).samples.length := by omega
    have hi'' : i < (MyDataset.init N g).labels.length := by omega
    rw [MyDataset.getitem, tensorRow_natCast, tensorRow_natCast,
      List.getElem?_eq_getElem hi', List.getElem?_eq_getElem hi'',
      List.getD_eq_getElem _ _ hi', List.getD_eq_getElem _ _ hi'']
  · intro i hi
    have hj : N - (i + 1) < N := by omega
    have hj' : N - (i + 1) < (MyDataset.init N g).samples.length := by omega
    have hj'' : N - (i + 1) < (MyDataset.init N g).labels.length := by omega
    rw [MyDataset.getitem, tensorRow_negCast _ _ (by omega),
      tensorRow_negCast _ _ (by omega), hs, hl,
      List.getElem?_eq_getElem hj', List.getElem?_eq_getElem hj'',
      List.getD_eq_getElem _ _ hj', List.getD_eq_getElem _ _ hj'']

/-- Witness for the amended claim C4 at a dataset of size 2, index 5
(out of range) and index 1 (in range). -/
theorem myDataset_getitem_spec_witness :
    (MyDataset.init 2 (fun _ _ => 0)).len = 2 ∧
    (MyDataset.init 2 (fun _ _ => 0)).getitem 5 = none ∧
    (MyDataset.init 2 (fun _ _ => 0)).getitem 1 =
      some ((MyDataset.init 2 (fun _ _ => 0)).samples.getD 1 [],
        (MyDataset.init 2 (fun _ _ => 0)).labels.getD 1 0) :=
  ⟨(myDataset_getitem_spec 2 (fun _ _ => 0) 5).1,
   (myDataset_getitem_spec 2 (fun _ _ => 0) 5).2.1.mpr (Or.inl (by omega)),
   (myDataset_getitem_spec 2 (fun _ _ => 0) 1).2.2.1 1 (by omega)⟩

theorem batchAux_true_map_length {α : Type} (B : ℕ) :
    ∀ (items buf : List α), buf.length < B →
      (batchAux B true items buf).map List.length =
        List.replicate ((buf.length + items.length) / B) B := by
  intro items
  induction items with
  | nil =>
    intro buf hb
    have hd : buf.length / B = 0 := Nat.div_eq_of_lt hb
    simp [batchAux, hd]
  | cons x xs ih =>
    intro buf hb
    by_cases hfull : buf.length + 1 = B
    · have hB : 0 < B := by omega
      have h0 : ([] : List α).length < B := by simpa using hB
      simp only [batchAux, if_pos hfull, List.map_cons, ih [] h0]
      have hlen2 : (buf ++ [x]).length = B := by
        simp only [List.length_append, List.length_cons, List.length_nil]
        omega
      have he : buf.length + (x :: xs).length = xs.length + B := by
        simp only [List.length_cons]
        omega
      rw [hlen2, he, Nat.add_div_right _ hB, List.replicate_succ]
      simp
    · simp only [batchAux, if_neg hfull]
      have hlt : (buf ++ [x]).length < B := by
        simp only [List.length_append, List.length_cons, List.length_nil]
        omega
      rw [ih (buf ++ [x]) hlt]
      have he : (buf ++ [x]).length + xs.length = buf.length + (x :: xs).length := by
        simp only [List.length_append, List.length_cons, List.length_nil]
        omega
      rw [he]

theorem batchAux_false_map_length {α : Type} (B : ℕ) :
    ∀ (items buf : List α), buf.length < B →
      (batchAux B false items buf).map List.length =
        List.replicate ((buf.length + items.length) / B) B ++
          (if (buf.length + items.length) % B = 0 then []
           else [(buf.length + items.length) % B]) := by
  intro items
  induction items with
  | nil =>
    intro buf hb
    cases buf with
    | nil => simp [batchAux]
    | cons b bs =>
      have hblt : bs.length + 1 < B := by simpa using hb
      have hd : (bs.length + 1) / B = 0 := Nat.div_eq_of_lt hblt
      have hm : (bs.length + 1) % B = bs.length + 1 := Nat.mod_eq_of_lt hblt
      simp [batchAux, hd, hm]
  | cons x xs ih =>
    intro buf hb
    by_cases hfull : buf.length + 1 = B
    · have hB : 0 < B := by omega
      have h0 : ([] : List α).length < B := by simpa using hB
      simp only [batchAux, if_pos hfull, List.map_cons, ih [] h0]
      have hlen2 : (buf ++ [x]).length = B := by
        simp only [List.length_append, List.length_cons, List.length_nil]
        omega
      have he : buf.length + (x :: xs).length = xs.length + B := by
        simp only [List.length_cons]
        omega
      rw [hlen2, he, Nat.add_div_right _ hB, Nat.add_mod_right, List.replicate_succ]
      simp
    · simp only [batchAux, if_neg hfull]
      have hlt : (buf ++ [x]).length < B := by
        simp only [List.length_append, List.length_cons, List.length_nil]
        omega
      rw [ih (buf ++ [x]) hlt]
      have he : (buf ++ [x]).length + xs.length = buf.length + (x :: xs).length := by
        simp only [List.length_append, List.length_cons, List.length_nil]
        omega
      rw [he]

/-- Claim C5: for batch size B > 0, a pass with drop-last enabled yields
exactly floor(N / B) batches, each of exactly B items; with drop-last
disabled it yields floor(N / B) full batches plus one final batch of
size N mod B emitted only when that remainder is nonzero, so the batch
sizes over one full pass sum to N (here N is the number of items). -/
theorem dataLoader_batching {α : Type} (B : ℕ) (hB : 0 < B) (items : List α) :
    (dataLoaderBatches B true items).length = items.length / B ∧
    (∀ b ∈ dataLoaderBatches B true items, b.length = B) ∧
    ((dataLoaderBatches B false items).map List.length =
      List.replicate (items.length / B) B ++
        (if items.length % B = 0 then [] else [items.length % B])) ∧
    ((dataLoaderBatches B false items).map List.length).sum = items.length := by
  have hbuf : ([] : List α).length < B := by simpa using hB
  have h1 := batchAux_true_map_length B items [] hbuf
  have h2 := batchAux_false_map_length B items [] hbuf
  simp only [List.length_nil, Nat.zero_add] at h1 h2
  have h1' : (dataLoaderBatches B true items).map List.length =
      List.replicate (items.length / B) B := h1
  have h2' : (dataLoaderBatches B false items).map List.length =
      List.replicate (items.length / B) B ++
        (if items.length % B = 0 then [] else [items.length % B]) := h2
  refine ⟨?_, ?_, h2', ?_⟩
  · have h3 := congrArg List.length h1'
    simpa using h3
  · intro b hb
    have hmem : b.length ∈ (dataLoaderBatches B true items).map List.length :=
      List.mem_map_of_mem _ hb
    rw [h1'] at hmem
    exact List.eq_of_mem_replicate hmem
  · rw [h2']
    by_cases hmod : items.length % B = 0
    · rw [if_pos hmod]
      simp only [List.append_nil, List.sum_replicate, smul_eq_mul]
      exact Nat.div_mul_cancel (Nat.dvd_of_mod_eq_zero hmod)
    · rw [if_neg hmod]
      simp only [List.sum_append, List.sum_replicate, smul_eq_mul, List.sum_cons,
        List.sum_nil, Nat.add_zero]
      rw [Nat.mul_comm]
      exact Nat.div_add_mod items.length B

/-- Witness for claim C5 at batch size 2 over 5 items. -/
theorem dataLoader_batching_witness :
    (dataLoaderBatches 2 true ([0, 1, 2, 3, 4] : List ℕ)).length =
      ([0, 1, 2, 3, 4] : List ℕ).length / 2 ∧
    (∀ b ∈ dataLoaderBatches 2 true ([0, 1, 2, 3, 4] : List ℕ), b.length = 2) ∧
    ((dataLoaderBatches 2 false ([0, 1, 2, 3, 4] : List ℕ)).map List.length =
      List.replicate (([0, 1, 2, 3, 4] : List ℕ).length / 2) 2 ++
        (if ([0, 1, 2, 3, 4] : List ℕ).length % 2 = 0 then []
         else [([0, 1, 2, 3, 4] : List ℕ).length % 2])) ∧
    ((dataLoaderBatches 2 false ([0, 1, 2, 3, 4] : List ℕ)).map List.length).sum =
      ([0, 1, 2, 3, 4] : List ℕ).length :=
  dataLoader_batching 2 (by norm_num) [0, 1, 2, 3, 4]

/-- Claim C6: the Model's forward computation equals the composition:
subtract 0.5 elementwise from the input, linear transform to 128
dimensions, rectified-linear activation, dropout with probability 0.2
active only in training mode, then linear transform to out_dim
dimensions; the output is the raw score vector of the final linear
layer, with no softmax applied. -/
theorem myModel_forward_pipeline (in_dim out_dim : ℕ) (g1 : ℕ → ℕ → ℚ)
    (h1 : ℕ → ℚ) (g2 : ℕ → ℕ → ℚ) (h2 : ℕ → ℚ) (training : Bool)
    (mask : ℕ → Bool) (x : List ℚ) :
    (MyModel.init in_dim out_dim g1 h1 g2 h2).forward training mask x =
      specModelForward (MyModel.init in_dim out_dim g1 h1 g2 h2) training mask x ∧
    (linearForward (MyModel.init in_dim out_dim g1 h1 g2 h2).W1
      (MyModel.init in_dim out_dim g1 h1 g2 h2).b1
      (x.map fun a => a - 1 / 2)).length = 128 ∧
    ((MyModel.init in_dim out_dim g1 h1 g2 h2).forward training mask x).length = out_dim ∧
    (MyModel.init in_dim out_dim g1 h1 g2 h2).forward false mask x =
      linearForward (MyModel.init in_dim out_dim g1 h1 g2 h2).W2
        (MyModel.init in_dim out_dim g1 h1 g2 h2).b2
        (reluForward (linearForward (MyModel.init in_dim out_dim g1 h1 g2 h2).W1
          (MyModel.init in_dim out_dim g1 h1 g2 h2).b1
          (x.map fun a => a - 1 / 2))) := by
  refine ⟨rfl, ?_, ?_, rfl⟩
  · simp [linearForward, MyModel.init, mkMatrix]
  · show (linearForward (mkMatrix out_dim 128 g2) ((List.range out_dim).map h2)
      (dropoutForward training mask (1 / 5)
        (reluForward (linearForward (mkMatrix 128 in_dim g1) ((List.range 128).map h1)
          (x.map fun a => a - 1 / 2))))).length = out_dim
    simp [linearForward, mkMatrix]

/-- Claim C7: in evaluation mode the model is deterministic: the output
does not depend on the dropout randomness, so two forward passes on the
same input with the same parameters yield identical output. -/
theorem myModel_eval_deterministic (m : MyModel) (mask1 mask2 : ℕ → Bool)
    (x : List ℚ) :
    m.forward false mask1 x = m.forward false mask2 x := rfl

theorem epochBody_eq_ok {θ σ : Type} (f : θ → List ℚ → List ℚ)
    (c : List (List ℚ) → List ℕ → ℚ) (opt : Option (TorchOptimizer θ σ))
    (mode : String) (hopt : mode = "train" → opt.isSome = true)
    (st : LoopState θ σ) (b : Batch) :
    epochBody f c opt mode st b = Except.ok (epochBodyOk f c opt mode st b) := by
  by_cases hm : mode = "train"
  · cases ho : opt with
    | none =>
      have hcontra := hopt hm
      rw [ho] at hcontra
      simp at hcontra
    | some o => simp [epochBody, epochBodyOk, trainUpdate, hm, ho]
  · simp [epochBody, epochBodyOk, trainUpdate, hm]

theorem foldlM_epochBody {θ σ : Type} (f : θ → List ℚ → List ℚ)
    (c : List (List ℚ) → List ℕ → ℚ) (opt : Option (TorchOptimizer θ σ))
    (mode : String) (hopt : mode = "train" → opt.isSome = true) :
    ∀ (l : List Batch) (st : LoopState θ σ),
      List.foldlM (epochBody f c opt mode) st l =
        Except.ok (List.foldl (epochBodyOk f c opt mode) st l) := by
  intro l
  induction l with
  | nil => intro st; rfl
  | cons b bs ih =>
    intro st
    rw [List.foldlM_cons, epochBody_eq_ok f c opt mode hopt st b, List.foldl_cons]
    exact ih (epochBodyOk f c opt mode st b)

theorem foldl_epochBodyOk_n_samples {θ σ : Type} (f : θ → List ℚ → List ℚ)
    (c : List (List ℚ) → List ℕ → ℚ) (opt : Option (TorchOptimizer θ σ))
    (mode : String) :
    ∀ (l : List Batch) (st : LoopState θ σ),
      (List.foldl (epochBodyOk f c opt mode) st l).n_samples =
        st.n_samples + totalSamples l := by
  intro l
  induction l with
  | nil => intro st; simp [totalSamples]
  | cons b bs ih =>
    intro st
    rw [List.foldl_cons, ih]
    have hn : (epochBodyOk f c opt mode st b).n_samples =
        st.n_samples + b.1.length := rfl
    rw [hn]
    simp only [totalSamples, List.map_cons, List.sum_cons]
    omega

theorem foldl_epochBodyOk_n_correct {θ σ : Type} (f : θ → List ℚ → List ℚ)
    (c : List (List ℚ) → List ℕ → ℚ) (opt : Option (TorchOptimizer θ σ))
    (mode : String) :
    ∀ (l : List Batch) (st : LoopState θ σ),
      (List.foldl (epochBodyOk f c opt mode) st l).n_correct =
        st.n_correct + specCorrect f c opt mode st.params st.ostate l := by
  intro l
  induction l with
  | nil => intro st; simp [specCorrect]
  | cons b bs ih =>
    intro st
    rw [List.foldl_cons, ih]
    have hp : (epochBodyOk f c opt mode st b).params =
        (trainUpdate f c opt mode st.params st.ostate b).1 := rfl
    have hs : (epochBodyOk f c opt mode st b).ostate =
        (trainUpdate f c opt mode st.params st.ostate b).2 := rfl
    have hn : (epochBodyOk f c opt mode st b).n_correct =
        st.n_correct + countCorrect (b.1.map (f st.params)) b.2 := rfl
    rw [hp, hs, hn, specCorrect]
    omega

theorem countCorrect_le_length (out : List (List ℚ)) (labels : List ℕ) :
    countCorrect out labels ≤ out.length := by
  unfold countCorrect
  have h1 := List.countP_le_length (p := fun p => argmax p.1 == p.2)
    (l := out.zip labels)
  have h2 : (out.zip labels).length ≤ out.length := by
    rw [List.length_zip]
    exact Nat.min_le_left _ _
  exact h1.trans h2

theorem foldl_epochBodyOk_correct_le {θ σ : Type} (f : θ → List ℚ → List ℚ)
    (c : List (List ℚ) → List ℕ → ℚ) (opt : Option (TorchOptimizer θ σ))
    (mode : String) :
    ∀ (l : List Batch) (st : LoopState θ σ), st.n_correct ≤ st.n_samples →
      (List.foldl (epochBodyOk f c opt mode) st l).n_correct ≤
        (List.foldl (epochBodyOk f c opt mode) st l).n_samples := by
  intro l
  induction l with
  | nil => intro st h; exact h
  | cons b bs ih =>
    intro st h
    rw [List.foldl_cons]
    apply ih
    have hc : countCorrect (b.1.map (f st.params)) b.2 ≤ b.1.length := by
      have h3 := countCorrect_le_length (b.1.map (f st.params)) b.2
      simpa using h3
    have hn : (epochBodyOk f c opt mode st b).n_correct =
        st.n_correct + countCorrect (b.1.map (f st.params)) b.2 := rfl
    have hm : (epochBodyOk f c opt mode st b).n_samples =
        st.n_samples + b.1.length := rfl
    rw [hn, hm]
    omega

theorem foldl_epochBodyOk_frame {θ σ : Type} (f : θ → List ℚ → List ℚ)
    (c : List (List ℚ) → List ℕ → ℚ) (opt : Option (TorchOptimizer θ σ))
    (mode : String) (hm : mode ≠ "train") :
    ∀ (l : List Batch) (st : LoopState θ σ),
      (List.foldl (epochBodyOk f c opt mode) st l).params = st.params ∧
      (List.foldl (epochBodyOk f c opt mode) st l).ostate = st.ostate := by
  intro l
  induction l with
  | nil => intro st; exact ⟨rfl, rfl⟩
  | cons b bs ih =>
    intro st
    rw [List.foldl_cons]
    have h1 := ih (epochBodyOk f c opt mode st b)
    have hp : (epochBodyOk f c opt mode st b).params = st.params := by
      show (trainUpdate f c opt mode st.params st.ostate b).1 = st.params
      rw [trainUpdate.eq_def, if_neg hm]
    have hs : (epochBodyOk f c opt mode st b).ostate = st.ostate := by
      show (trainUpdate f c opt mode st.params st.ostate b).2 = st.ostate
      rw [trainUpdate.eq_def, if_neg hm]
    exact ⟨h1.1.trans hp, h1.2.trans hs⟩

theorem foldl_epochBodyOk_last_loss {θ σ : Type} (f : θ → List ℚ → List ℚ)
    (c : List (List ℚ) → List ℕ → ℚ) (opt : Option (TorchOptimizer θ σ))
    (mode : String) (l : List Batch) (b : Batch) (st : LoopState θ σ) :
    (List.foldl (epochBodyOk f c opt mode) st (l ++ [b])).last_loss =
      some (c (b.1.map (f (List.foldl (epochBodyOk f c opt mode) st l).params)) b.2) := by
  rw [List.foldl_append]
  rfl

/-- Claim C2: for a well-formed call (an optimizer is supplied whenever
the mode is train) on a non-empty sequence of non-empty batches, the
Epoch Runner returns a pair whose first component equals the total
number of correctly classified samples (predicted label = argmax of the
model's output scores) divided by the total number of samples across
all batches — a value in [0, 1] — and whose second component is the
cross-entropy loss of the last batch only, not an average over
batches. -/
theorem single_epoch_loop_accuracy_loss {θ σ : Type} (f : θ → List ℚ → List ℚ)
    (c : List (List ℚ) → List ℕ → ℚ) (p₀ : θ) (s₀ : σ) (loader : List Batch)
    (opt : Option (TorchOptimizer θ σ)) (mode : String)
    (hopt : mode = "train" → opt.isSome = true)
    (hne : loader ≠ [])
    (hb : ∀ b ∈ loader, b.1 ≠ []) :
    ∃ acc lv p2 s2,
      single_epoch_loop f c p₀ s₀ loader opt mode =
        Except.ok ((acc, lv), p2, s2) ∧
      acc = (specCorrect f c opt mode p₀ s₀ loader : ℚ) /
        (totalSamples loader : ℚ) ∧
      0 ≤ acc ∧ acc ≤ 1 ∧
      ∃ bs b, loader = bs ++ [b] ∧
        lv = c (b.1.map (f (List.foldl (epochBodyOk f c opt mode)
          (initLoopState p₀ s₀) bs).params)) b.2 := by
  have hsplit : loader.dropLast ++ [loader.getLast hne] = loader :=
    List.dropLast_append_getLast hne
  have hpos : 0 < totalSamples loader := by
    cases hcase : loader with
    | nil => exact absurd hcase hne
    | cons b0 rest =>
      have hb0 : b0.1 ≠ [] := hb b0 (by rw [hcase]; exact List.mem_cons_self b0 rest)
      have hlp : 0 < b0.1.length := List.length_pos.mpr hb0
      simp only [totalSamples, List.map_cons, List.sum_cons]
      omega
  have hns : (List.foldl (epochBodyOk f c opt mode) (initLoopState p₀ s₀)
      loader).n_samples = totalSamples loader := by
    rw [foldl_epochBodyOk_n_samples]
    simp [initLoopState]
  have hnc : (List.foldl (epochBodyOk f c opt mode) (initLoopState p₀ s₀)
      loader).n_correct = specCorrect f c opt mode p₀ s₀ loader := by
    rw [foldl_epochBodyOk_n_correct]
    simp [initLoopState]
  have hll : (List.foldl (epochBodyOk f c opt mode) (initLoopState p₀ s₀)
      loader).last_loss =
      some (c ((loader.getLast hne).1.map (f (List.foldl
        (epochBodyOk f c opt mode) (initLoopState p₀ s₀)
        loader.dropLast).params)) (loader.getLast hne).2) := by
    conv_lhs => rw [← hsplit]
    exact foldl_epochBodyOk_last_loss f c opt mode loader.dropLast
      (loader.getLast hne) (initLoopState p₀ s₀)
  have hle : (List.foldl (epochBodyOk f c opt mode) (initLoopState p₀ s₀)
      loader).n_correct ≤ (List.foldl (epochBodyOk f c opt mode)
      (initLoopState p₀ s₀) loader).n_samples :=
    foldl_epochBodyOk_correct_le f c opt mode loader (initLoopState p₀ s₀)
      (Nat.le_refl 0)
  have hn0 : ¬ (List.foldl (epochBodyOk f c opt mode) (initLoopState p₀ s₀)
      loader).n_samples = 0 := by
    rw [hns]
    omega
  refine ⟨((List.foldl (epochBodyOk f c opt mode) (initLoopState p₀ s₀)
      loader).n_correct : ℚ) / ((List.foldl (epochBodyOk f c opt mode)
      (initLoopState p₀ s₀) loader).n_samples : ℚ),
    c ((loader.getLast hne).1.map (f (List.foldl (epochBodyOk f c opt mode)
      (initLoopState p₀ s₀) loader.dropLast).params)) (loader.getLast hne).2,
    (List.foldl (epochBodyOk f c opt mode) (initLoopState p₀ s₀) loader).params,
    (List.foldl (epochBodyOk f c opt mode) (initLoopState p₀ s₀) loader).ostate,
    ?_, ?_, ?_, ?_, loader.dropLast, loader.getLast hne, hsplit.symm, rfl⟩
  · have hfold := foldlM_epochBody f c opt mode hopt loader (initLoopState p₀ s₀)
    rw [single_epoch_loop, hfold]
    show epochFinish (List.foldl (epochBodyOk f c opt mode)
      (initLoopState p₀ s₀) loader) = _
    rw [epochFinish, if_neg hn0, hll]
  · rw [hnc, hns]
  · exact div_nonneg (Nat.cast_nonneg _) (Nat.cast_nonneg _)
  · have hdpos : (0 : ℚ) < ((List.foldl (epochBodyOk f c opt mode)
        (initLoopState p₀ s₀) loader).n_samples : ℚ) := by
      rw [hns]
      exact_mod_cast hpos
    exact (div_le_one hdpos).mpr (by exact_mod_cast hle)

/-- Claim C8: invoked in train mode on a non-empty batch sequence without
an optimizer, the Epoch Runner fails (AttributeError on None at the
first batch). -/
theorem single_epoch_loop_train_no_optimizer {θ σ : Type}
    (f : θ → List ℚ → List ℚ) (c : List (List ℚ) → List ℕ → ℚ)
    (p₀ : θ) (s₀ : σ) (b : Batch) (bs : List Batch) :
    single_epoch_loop f c p₀ s₀ (b :: bs) none "train" =
      Except.error "AttributeError: NoneType object has no attribute zero_grad" := rfl

/-- Claim C9: on an empty batch sequence the Epoch Runner never returns a
value: with n_samples = 0 the accuracy computation n_correct / n_samples
raises a division-by-zero error, in every mode and with or without an
optimizer. -/
theorem single_epoch_loop_empty_loader {θ σ : Type} (f : θ → List ℚ → List ℚ)
    (c : List (List ℚ) → List ℕ → ℚ) (p₀ : θ) (s₀ : σ)
    (opt : Option (TorchOptimizer θ σ)) (mode : String) :
    single_epoch_loop f c p₀ s₀ [] opt mode =
      Except.error "ZeroDivisionError: division by zero" := rfl

/-- Claim C10: for every mode string other than exactly "train", the
Epoch Runner performs no update: whenever it returns a value, the model
parameters and optimizer state it hands back are exactly the ones it
was given. -/
theorem single_epoch_loop_nontrain_frame {θ σ : Type} (f : θ → List ℚ → List ℚ)
    (c : List (List ℚ) → List ℕ → ℚ) (p₀ : θ) (s₀ : σ) (loader : List Batch)
    (opt : Option (TorchOptimizer θ σ)) (mode : String) (hm : mode ≠ "train")
    (acc lv : ℚ) (p2 : θ) (s2 : σ)
    (h : single_epoch_loop f c p₀ s₀ loader opt mode =
      Except.ok ((acc, lv), p2, s2)) :
    p2 = p₀ ∧ s2 = s₀ := by
  have hopt : mode = "train" → opt.isSome = true := fun hmm => absurd hmm hm
  rw [single_epoch_loop, foldlM_epochBody f c opt mode hopt] at h
  have hfr := foldl_epochBodyOk_frame f c opt mode hm loader (initLoopState p₀ s₀)
  have h2 : epochFinish (List.foldl (epochBodyOk f c opt mode)
      (initLoopState p₀ s₀) loader) = Except.ok ((acc, lv), p2, s2) := h
  rw [epochFinish] at h2
  by_cases h0 : (List.foldl (epochBodyOk f c opt mode) (initLoopState p₀ s₀)
      loader).n_samples = 0
  · rw [if_pos h0] at h2
    exact absurd h2 (by simp)
  · rw [if_neg h0] at h2
    cases hl : (List.foldl (epochBodyOk f c opt mode) (initLoopState p₀ s₀)
        loader).last_loss with
    | none =>
      rw [hl] at h2
      exact absurd h2 (by simp)
    | some l0 =>
      rw [hl] at h2
      have h3 := Except.ok.inj h2
      have hp2 : p2 = (List.foldl (epochBodyOk f c opt mode)
          (initLoopState p₀ s₀) loader).params :=
        (congrArg (fun t => t.2.1) h3).symm
      have hs2 : s2 = (List.foldl (epochBodyOk f c opt mode)
          (initLoopState p₀ s₀) loader).ostate :=
        (congrArg (fun t => t.2.2) h3).symm
      exact ⟨hp2.trans hfr.1, hs2.trans hfr.2⟩

/-- Witness for claim C2: one batch of one sample, identity scores,
constant-zero loss, evaluation mode, no optimizer. -/
theorem single_epoch_loop_accuracy_loss_witness :
    ∃ acc lv p2 s2,
      single_epoch_loop (fun (_ : Unit) (v : List ℚ) => v)
        (fun _ _ => (0 : ℚ)) () () [([[1]], [0])] none "test" =
        Except.ok ((acc, lv), p2, s2) ∧
      acc = (specCorrect (fun (_ : Unit) (v : List ℚ) => v)
        (fun _ _ => (0 : ℚ)) none "test" () () [([[1]], [0])] : ℚ) /
        (totalSamples [([[1]], [0])] : ℚ) ∧
      0 ≤ acc ∧ acc ≤ 1 ∧
      ∃ bs b, [([[1]], [0])] = bs ++ [b] ∧
        lv = (fun _ _ => (0 : ℚ)) (b.1.map ((fun (_ : Unit) (v : List ℚ) => v)
          (List.foldl (epochBodyOk (fun (_ : Unit) (v : List ℚ) => v)
            (fun _ _ => (0 : ℚ)) none "test") (initLoopState () ()) bs).params)) b.2 :=
  single_epoch_loop_accuracy_loss (fun (_ : Unit) (v : List ℚ) => v)
    (fun _ _ => (0 : ℚ)) () () [([[1]], [0])] none "test"
    (fun hmm => absurd hmm (by decide)) (by simp)
    (by intro b hb; rw [List.mem_singleton] at hb; subst hb; simp)

/-- Witness for claim C10: evaluation mode on one batch returns the
incoming parameter value 7 and optimizer-state value 3 unchanged. -/
theorem single_epoch_loop_nontrain_frame_witness :
    (7 : ℚ) = 7 ∧ (3 : ℚ) = 3 :=
  single_epoch_loop_nontrain_frame (fun (_ : ℚ) (v : List ℚ) => v)
    (fun _ _ => (0 : ℚ)) 7 3 [([[1]], [0])] none "test" (by decide)
    (((1 : ℕ) : ℚ) / ((1 : ℕ) : ℚ)) 0 7 3 rfl

/-- Claim C3: checkpoint round trip: loading the record saved at a path
returns exactly the four saved fields — epoch, model state, optimizer
state and best accuracy — and restoring the model state into a model of
matching parameter shapes reproduces the saved numeric state exactly. -/
theorem checkpoint_round_trip {OS : Type} (path : String) (ep : ℕ)
    (M : MyModel) (os : OS) (acc : ℚ) (fs : String → Option (Checkpoint OS))
    (m0 : MyModel) (hshape : stateDictShapesMatch m0 M.state_dict = true) :
    ∃ ck, torch_load path (torch_save path
        { epoch := ep, model_state_dict := M.state_dict,
          optimizer_state_dict := os, best_acc := acc } fs) = some ck ∧
      ck.epoch = ep ∧ ck.best_acc = acc ∧ ck.optimizer_state_dict = os ∧
      ck.model_state_dict = M.state_dict ∧
      ∃ m1, m0.load_state_dict ck.model_state_dict true = Except.ok m1 ∧
        m1.state_dict = M.state_dict := by
  refine ⟨Checkpoint.mk ep M.state_dict os acc, ?_, rfl, rfl, rfl, rfl, ?_⟩
  · simp [torch_load, torch_save]
  · show ∃ m1, m0.load_state_dict M.state_dict true = Except.ok m1 ∧
      m1.state_dict = M.state_dict
    refine ⟨MyModel.mk M.state_dict.W1 M.state_dict.b1 M.state_dict.W2
      M.state_dict.b2, ?_, rfl⟩
    rw [MyModel.load_state_dict.eq_def, if_pos hshape]

/-- Witness for claim C3 on concrete one-parameter-per-layer models, with
epoch 5 and best accuracy 0.97, over an empty file store. -/
theorem checkpoint_round_trip_witness :
    ∃ ck, torch_load "ckpt.pt" (torch_save "ckpt.pt"
        { epoch := 5,
          model_state_dict := (⟨[[1]], [0], [[2]], [0]⟩ : MyModel).state_dict,
          optimizer_state_dict := (42 : ℕ), best_acc := 97 / 100 }
        (fun _ => none)) = some ck ∧
      ck.epoch = 5 ∧ ck.best_acc = 97 / 100 ∧ ck.optimizer_state_dict = 42 ∧
      ck.model_state_dict = (⟨[[1]], [0], [[2]], [0]⟩ : MyModel).state_dict ∧
      ∃ m1, (⟨[[5]], [7], [[8]], [9]⟩ : MyModel).load_state_dict
          ck.model_state_dict true = Except.ok m1 ∧
        m1.state_dict = (⟨[[1]], [0], [[2]], [0]⟩ : MyModel).state_dict :=
  checkpoint_round_trip "ckpt.pt" 5 ⟨[[1]], [0], [[2]], [0]⟩ 42 (97 / 100)
    (fun _ => none) ⟨[[5]], [7], [[8]], [9]⟩ (by decide)
